import Mathlib

/-! Serial-to-TCP bridge (`examples/FlowControl.cpp`).

A shallow embedding of the bridge: the string utilities
(`strip_leading_non_alnum`, `escape_special_characters`), the line splitting and
framing loop of `serial_reader`, the connection handling of
`connect_to_server` and `send_server`, and the reconnect loop of `main`.

A C++ `std::string` and a `vector<uint8_t>` are both modelled as a list of bytes.
-/

namespace FlowControl

/-- One byte: a `char` read as `unsigned char`, or a `uint8_t`. -/
abbrev Byte := Fin 256

/-- A `std::string` or a `vector<uint8_t>`: a finite sequence of bytes. -/
abbrev Bytes := List Byte

/-! ## Configuration constants (lines 27-30) -/

/-- The constant `HEADER = "STM:1:1::1"`. -/
def HEADER : Bytes := [83, 84, 77, 58, 49, 58, 49, 58, 58, 49]

/-- The constant `FOOTER = ":"`. -/
def FOOTER : Bytes := [58]

/-- The constant `STX = 0x02`. -/
def STX : Byte := 2

/-- The constant `ETX = 0x03`. -/
def ETX : Byte := 3

/-- The carriage return `'\r'` (0x0D), the line delimiter of `serial_reader`. -/
def CR : Byte := 13

/-- The backslash `'\\'` (0x5C). -/
def BACKSLASH : Byte := 92

/-- The colon `':'` (0x3A). -/
def COLON : Byte := 58

/-! ## Library operations used by the source -/

/-- The C library `isalnum` on an `unsigned char`, in the default "C" locale (the
program never calls `setlocale`): the ASCII digits and letters. -/
def isalnum (c : Byte) : Bool :=
  (48 ≤ c.val && c.val ≤ 57) || (65 ≤ c.val && c.val ≤ 90) || (97 ≤ c.val && c.val ≤ 122)

/-- The call `s.substr(pos)` for `pos <= s.size()`: the suffix from index `pos`. -/
def substr_from (s : Bytes) (pos : Nat) : Bytes := s.drop pos

/-- The call `s.substr(pos, n)` for `pos <= s.size()`: at most `n` bytes from index `pos`. -/
def substr (s : Bytes) (pos n : Nat) : Bytes := (s.drop pos).take n

/-- The call `s.erase(pos, n)` for `pos <= s.size()`: `s` without at most `n` bytes from index `pos`. -/
def erase (s : Bytes) (pos n : Nat) : Bytes := s.take pos ++ s.drop (pos + n)

/-- The call `s.find(c)`: the index of the first occurrence of `c`, `none` for `string::npos`. -/
def find : Bytes → Byte → Option Nat
  | [], _ => none
  | x :: xs, c => if x = c then some 0 else (find xs c).map (· + 1)

/-! ## Utility functions (lines 37-51) -/

/-- The `while` loop of `strip_leading_non_alnum` (line 39): from index `i`, advance
while `i < s.size()` and `s[i]` is not alphanumeric. The loop makes at most `s.size()`
steps, which is the fuel `strip_leading_non_alnum` gives it. -/
def strip_scan (s : Bytes) : Nat → Nat → Nat
  | 0, i => i
  | fuel + 1, i =>
    if i < s.length && !isalnum (s.getD i 0) then strip_scan s fuel (i + 1) else i

/-- The function `strip_leading_non_alnum` (lines 37-41): `s.substr(i)` for the index
`i` at which the loop stops. -/
def strip_leading_non_alnum (s : Bytes) : Bytes :=
  substr_from s (strip_scan s s.length 0)

/-- What `escape_special_characters` appends for one character (lines 46-48). -/
def escape_step (escaped : Bytes) (c : Byte) : Bytes :=
  if c = BACKSLASH then escaped ++ [BACKSLASH, BACKSLASH]
  else if c = COLON then escaped ++ [BACKSLASH, COLON]
  else escaped ++ [c]

/-- The function `escape_special_characters` (lines 43-51): the range-for loop over `text`,
starting from the empty string `escaped`. -/
def escape_special_characters (text : Bytes) : Bytes :=
  text.foldl escape_step []

/-! ## The reader loop of `serial_reader` (lines 117-150) -/

/-- Lines 136-137: the payload of a line before escaping. Strip the leading
non-alphanumeric bytes, then `if (payload.size() > 1) payload = payload.substr(1)`. -/
def unescaped_payload (line : Bytes) : Bytes :=
  let payload := strip_leading_non_alnum line
  if payload.length > 1 then substr_from payload 1 else payload

/-- Lines 136-145: the vector `msg` built for a line. -/
def build_msg (line : Bytes) : Bytes :=
  let payload := escape_special_characters (unescaped_payload line)
  let msg_str := HEADER ++ payload ++ FOOTER
  let msg : Bytes := []
  let msg := msg ++ [STX]
  let msg := msg ++ msg_str
  msg ++ [ETX]

/-- The state of the reader thread. `buffer` is the local variable of
`serial_reader` (line 117). `lines` and `sent` are observation logs: every `line`
extracted at line 129 and every `msg` passed to `send_server` at line 147, oldest first. -/
structure ReaderState where
  buffer : Bytes
  lines : List Bytes
  sent : List Bytes
deriving DecidableEq

/-- The reader thread at start: `string buffer;` and nothing extracted or sent yet. -/
def ReaderState.init : ReaderState := ⟨[], [], []⟩

/-- Lines 132-148: what the loop body does with an extracted `line`. A non-empty
line is framed and passed to `send_server`; an empty one is skipped. -/
def handle_line (line : Bytes) (sent : List Bytes) : List Bytes :=
  if !line.isEmpty then sent ++ [build_msg line] else sent

/-- The inner `while` loop (lines 128-149). Each iteration removes at least one byte
from `buffer`, so `buffer.size()` iterations are enough: `read_chunk` gives that fuel. -/
def split_loop : Nat → ReaderState → ReaderState
  | 0, st => st
  | fuel + 1, st =>
    match find st.buffer CR with
    | none => st
    | some pos =>
      let line := substr st.buffer 0 pos
      let buffer := erase st.buffer 0 (pos + 1)
      split_loop fuel ⟨buffer, st.lines ++ [line], handle_line line st.sent⟩

/-- One pass of the outer loop in which `serialPort.Read` returned `chunk`
(lines 123-150). -/
def read_chunk (st : ReaderState) (chunk : Bytes) : ReaderState :=
  if !chunk.isEmpty then
    let buffer := st.buffer ++ chunk
    split_loop buffer.length { st with buffer := buffer }
  else st

/-- The reader thread fed a sequence of chunks, one per pass of the outer loop. -/
def read_chunks (st : ReaderState) (chunks : List Bytes) : ReaderState :=
  chunks.foldl read_chunk st

/-! ## TCP functions (lines 54-99) -/

/-- The lines the TCP functions print. -/
inductive LogLine where
  | socket_error     -- perror("[TCP] socket")
  | connecting       -- "[server] Connecting to ..."
  | connect_error    -- perror("[TCP] connect")
  | connected        -- "[server] Connected."
  | not_connected    -- "[TCP ] Socket not connected."
  | send_error       -- perror("[TCP] send")
  | sent_to_server   -- "[TCP ] Sent to server: ..."
deriving DecidableEq

/-- What the TCP functions do to the outside world, with the value each system call
returned. -/
inductive Event where
  | close (fd : Int)
  | socket (ret : Int)
  | connect (fd : Int) (ret : Int)
  | send (fd : Int) (msg : Bytes) (ret : Int)
  | log (line : LogLine)
deriving DecidableEq

/-- The shared connection state: the global `sock_fd` (line 33) and the events so
far, oldest first. -/
structure Conn where
  sock_fd : Int
  trace : List Event
deriving DecidableEq

/-- The program at start: `int sock_fd = -1;`, nothing done yet. -/
def Conn.init : Conn := ⟨-1, []⟩

/-- The value of `socket(AF_INET, SOCK_STREAM, 0)`: a new non-negative descriptor,
or -1 on error. -/
def socket_ret : Option Nat → Int
  | some fd => (fd : Int)
  | none => -1

/-- The function `connect_to_server` (lines 54-82). `sock` is the outcome of the `socket` call and
`conn_ret` the value the `connect` call returns if it is reached. -/
def connect_to_server (sock : Option Nat) (conn_ret : Int) (st : Conn) : Bool × Conn :=
  let st : Conn :=
    if st.sock_fd ≠ -1 then ⟨-1, st.trace ++ [Event.close st.sock_fd]⟩ else st
  let st : Conn := ⟨socket_ret sock, st.trace ++ [Event.socket (socket_ret sock)]⟩
  if st.sock_fd < 0 then
    (false, { st with trace := st.trace ++ [Event.log .socket_error] })
  else
    let st : Conn := { st with
      trace := st.trace ++ [Event.log .connecting, Event.connect st.sock_fd conn_ret] }
    if conn_ret < 0 then
      (false, ⟨-1, st.trace ++ [Event.log .connect_error, Event.close st.sock_fd]⟩)
    else
      (true, { st with trace := st.trace ++ [Event.log .connected] })

/-- The function `send_server` (lines 84-99). `send_ret` is the value the `send` call returns if it
is reached. -/
def send_server (msg : Bytes) (send_ret : Int) (st : Conn) : Conn :=
  if st.sock_fd < 0 then
    { st with trace := st.trace ++ [Event.log .not_connected] }
  else
    let sent := send_ret
    let st : Conn := { st with trace := st.trace ++ [Event.send st.sock_fd msg sent] }
    if sent < 0 then
      ⟨-1, st.trace ++ [Event.log .send_error, Event.close st.sock_fd]⟩
    else
      { st with trace := st.trace ++ [Event.log .sent_to_server] }

/-- A call of one of the two TCP functions, with the outcomes of the system calls it
may reach. -/
inductive Call where
  | connect_to_server (sock : Option Nat) (conn_ret : Int)
  | send_server (msg : Bytes) (send_ret : Int)
deriving DecidableEq

/-- The state after one call. -/
def Call.run (st : Conn) : Call → Conn
  | .connect_to_server sock conn_ret => (FlowControl.connect_to_server sock conn_ret st).2
  | .send_server msg send_ret => FlowControl.send_server msg send_ret st

/-- The state after a sequence of calls (each one holds `sock_mutex` from its first to
its last statement, so the calls of the two threads happen one after another). -/
def run_calls (st : Conn) (calls : List Call) : Conn :=
  calls.foldl Call.run st

/-- Whether a call is a `connect_to_server` call that returns `true`. -/
def Call.connects (st : Conn) : Call → Bool
  | .connect_to_server sock conn_ret => (FlowControl.connect_to_server sock conn_ret st).1
  | .send_server _ _ => false

/-- Whether an event is a `send` system call. -/
def Event.is_send : Event → Bool
  | .send _ _ _ => true
  | _ => false

/-- Whether an event is a `close` system call. -/
def Event.is_close : Event → Bool
  | .close _ => true
  | _ => false

/-- Whether no `connect_to_server` call of `calls`, run one after another from `st`,
returns `true`. -/
def no_connect_succeeds (st : Conn) : List Call → Bool
  | [] => true
  | c :: cs => !c.connects st && no_connect_succeeds (c.run st) cs

/-- Whether an event is a `connect` system call. -/
def Event.is_connect : Event → Bool
  | .connect _ _ => true
  | _ => false

/-- The descriptors open after one more event, given those open before it: a `socket`
call that returns a descriptor opens it, a `close` call closes the descriptor it is
given (and nothing when that descriptor is not open). -/
def open_after (opened : List Int) : Event → List Int
  | .socket ret => if 0 ≤ ret then ret :: opened else opened
  | .close fd => opened.erase fd
  | _ => opened

/-- The sockets opened and not yet closed after the events of `trace`. -/
def open_sockets (trace : List Event) : List Int :=
  trace.foldl open_after []

/-! ## The reconnect loop of `main` (lines 168-174) -/

/-- One pass of the reconnect loop (lines 170-173): `if (sock_fd < 0) connect_to_server();`
and then the sleep. The result is the calls of `connect_to_server` the pass makes and the
state after it. -/
def reconnect_iteration (sock : Option Nat) (conn_ret : Int) (st : Conn) :
    List Call × Conn :=
  if st.sock_fd < 0 then
    ([Call.connect_to_server sock conn_ret], (connect_to_server sock conn_ret st).2)
  else
    ([], st)

/-! ## Accesses to `sock_fd` and the mutex -/

/-- What a thread does with `sock_mutex` and with the variable `sock_fd`: taking the
mutex (a `lock_guard` is constructed), releasing it (the function returns), reading
`sock_fd` and writing it, each with its source line. -/
inductive Step where
  | lock (line : Nat)
  | unlock
  | read_fd (line : Nat)
  | write_fd (line : Nat)
deriving DecidableEq

/-- The steps of `connect_to_server` (lines 54-82), along the path it takes. -/
def connect_to_server_steps (sock : Option Nat) (conn_ret : Int) (st : Conn) : List Step :=
  [Step.lock 55, Step.read_fd 56] ++
  (if st.sock_fd ≠ -1 then [Step.read_fd 57, Step.write_fd 58] else []) ++
  [Step.write_fd 61, Step.read_fd 62] ++
  (if socket_ret sock < 0 then []
    else [Step.read_fd 73] ++
      (if conn_ret < 0 then [Step.read_fd 75, Step.write_fd 76] else [])) ++
  [Step.unlock]

/-- The steps of `send_server` (lines 84-99), along the path it takes. -/
def send_server_steps (send_ret : Int) (st : Conn) : List Step :=
  [Step.lock 85, Step.read_fd 86] ++
  (if st.sock_fd < 0 then []
    else [Step.read_fd 91] ++
      (if send_ret < 0 then [Step.read_fd 94, Step.write_fd 95] else [])) ++
  [Step.unlock]

/-- The steps of one pass of the reconnect loop of `main` (lines 170-172). -/
def reconnect_iteration_steps (sock : Option Nat) (conn_ret : Int) (st : Conn) :
    List Step :=
  [Step.read_fd 170] ++
  (if st.sock_fd < 0 then connect_to_server_steps sock conn_ret st else [])

/-- Whether every read and write of `sock_fd` in `steps` happens with the mutex held,
`held` telling whether it is held at the start. -/
def lock_disciplined (held : Bool) : List Step → Bool
  | [] => true
  | Step.lock _ :: rest => lock_disciplined true rest
  | Step.unlock :: rest => lock_disciplined false rest
  | Step.read_fd _ :: rest => held && lock_disciplined held rest
  | Step.write_fd _ :: rest => held && lock_disciplined held rest

/-- The first access to `sock_fd` made without the mutex, if there is one. -/
def first_unlocked (held : Bool) : List Step → Option Step
  | [] => none
  | Step.lock _ :: rest => first_unlocked true rest
  | Step.unlock :: rest => first_unlocked false rest
  | Step.read_fd l :: rest => if held then first_unlocked held rest else some (Step.read_fd l)
  | Step.write_fd l :: rest =>
    if held then first_unlocked held rest else some (Step.write_fd l)

/-! ## Reference definitions for the escaping -/

/-- The length of the maximal run of backslashes at the end of `l`. -/
def trailing_backslashes (l : Bytes) : Nat :=
  (l.reverse.takeWhile (fun c => c == BACKSLASH)).length

/-! ## Reference definitions for the line splitting -/

/-- The carriage-return-terminated segments of `cur ++ s`, left to right, where `cur`
is a segment under way that holds no carriage return: a plain left-to-right scan. -/
def cr_segments_from (cur : Bytes) : Bytes → List Bytes
  | [] => []
  | c :: cs =>
    if c = CR then cur :: cr_segments_from [] cs else cr_segments_from (cur ++ [c]) cs

/-- What follows the last carriage return of `cur ++ s` (all of it when there is none). -/
def cr_rest_from (cur : Bytes) : Bytes → Bytes
  | [] => cur
  | c :: cs => if c = CR then cr_rest_from [] cs else cr_rest_from (cur ++ [c]) cs

/-- The messages for a sequence of lines: one per non-empty line, in order. -/
def frames_of (lines : List Bytes) : List Bytes :=
  (lines.filter (fun l => !l.isEmpty)).map build_msg

/-! ## Lemmas on the utility functions -/

theorem strip_scan_drop (s : Bytes) (fuel i : Nat) (hfuel : s.length ≤ i + fuel) :
    s.drop (strip_scan s fuel i) = (s.drop i).dropWhile (fun c => !isalnum c) := by
  induction fuel generalizing i with
  | zero =>
    have h : s.length ≤ i := by simpa using hfuel
    rw [strip_scan, List.drop_eq_nil_of_le h, List.dropWhile_nil]
  | succ fuel ih =>
    rw [strip_scan]
    by_cases hi : i < s.length
    · have hd : s.drop i = s[i] :: s.drop (i + 1) := List.drop_eq_getElem_cons hi
      have hg : s.getD i 0 = s[i] := by
        rw [List.getD_eq_getElem?_getD, List.getElem?_eq_getElem hi, Option.getD_some]
      rw [hg, hd, List.dropWhile_cons]
      by_cases ha : isalnum s[i] = true
      · simp only [hi, ha, decide_True, Bool.not_true, Bool.and_false, Bool.false_eq_true,
          if_false]
        exact hd
      · have ha : isalnum s[i] = false := by simpa using ha
        simp only [hi, ha, decide_True, Bool.not_false, Bool.and_self, if_true]
        exact ih (i + 1) (by omega)
    · have h : s.length ≤ i := by omega
      simp only [hi, decide_False, Bool.false_and, Bool.false_eq_true, if_false]
      rw [List.drop_eq_nil_of_le h, List.dropWhile_nil]

theorem strip_leading_non_alnum_eq_dropWhile (s : Bytes) :
    strip_leading_non_alnum s = s.dropWhile (fun c => !isalnum c) := by
  have := strip_scan_drop s s.length 0 (by omega)
  simpa [strip_leading_non_alnum, substr_from] using this

theorem colon_ne_backslash : COLON ≠ BACKSLASH := by decide

theorem foldl_escape_step (text acc : Bytes) :
    text.foldl escape_step acc = acc ++ text.foldl escape_step [] := by
  induction text generalizing acc with
  | nil => simp
  | cons c cs ih =>
    rw [List.foldl_cons, ih, List.foldl_cons, ih (escape_step [] c)]
    by_cases h1 : c = BACKSLASH
    · simp [escape_step, h1]
    · by_cases h2 : c = COLON
      · subst h2
        simp [escape_step, colon_ne_backslash]
      · simp [escape_step, h1, h2]

theorem escape_nil : escape_special_characters [] = [] := rfl

theorem escape_cons (c : Byte) (cs : Bytes) :
    escape_special_characters (c :: cs) =
      (if c = BACKSLASH then [BACKSLASH, BACKSLASH]
        else if c = COLON then [BACKSLASH, COLON] else [c]) ++
      escape_special_characters cs := by
  unfold escape_special_characters
  rw [List.foldl_cons, foldl_escape_step]
  by_cases h1 : c = BACKSLASH
  · simp [escape_step, h1]
  · by_cases h2 : c = COLON <;> simp [escape_step, h1, h2]

/-! ## Claims on the utility functions -/

/-- C3: `strip_leading_non_alnum s` is the suffix of `s` from its first alphanumeric
byte: `s` is a run `p` of non-alphanumeric bytes followed by the result, the result is
empty or begins with an alphanumeric byte, and it is empty exactly when `s` has no
alphanumeric byte. -/
theorem strip_leading_non_alnum_spec (s : Bytes) :
    ∃ p : Bytes, s = p ++ strip_leading_non_alnum s ∧
      (∀ c ∈ p, isalnum c = false) ∧
      (strip_leading_non_alnum s = [] ∨
        ∃ c rest, strip_leading_non_alnum s = c :: rest ∧ isalnum c = true) ∧
      (strip_leading_non_alnum s = [] ↔ ∀ c ∈ s, isalnum c = false) := by
  rw [strip_leading_non_alnum_eq_dropWhile]
  refine ⟨s.takeWhile (fun c => !isalnum c), (List.takeWhile_append_dropWhile _ s).symm,
    ?_, ?_, ?_⟩
  · intro c hc
    simpa using List.mem_takeWhile_imp hc
  · cases h : s.dropWhile (fun c => !isalnum c) with
    | nil => exact Or.inl rfl
    | cons c rest =>
      refine Or.inr ⟨c, rest, rfl, ?_⟩
      have := List.head_dropWhile_not (fun c => !isalnum c) s (by simp [h])
      simpa [h] using this
  · simp [List.dropWhile_eq_nil_iff]

/-- C4: the drop-first rule. When more than one byte is left after stripping, the
unescaped payload is the stripped string without its first byte; otherwise it is the
stripped string. Line "A:B" gives ":B", escaped to backslash, colon, B; line "#A"
gives "A". -/
theorem unescaped_payload_drop_first (line : Bytes) :
    (1 < (strip_leading_non_alnum line).length →
      ∃ c, strip_leading_non_alnum line = c :: unescaped_payload line) ∧
    ((strip_leading_non_alnum line).length ≤ 1 →
      unescaped_payload line = strip_leading_non_alnum line) ∧
    unescaped_payload [65, 58, 66] = [58, 66] ∧
    escape_special_characters (unescaped_payload [65, 58, 66]) = [92, 58, 66] ∧
    unescaped_payload [35, 65] = [65] := by
  refine ⟨?_, ?_, by decide, by decide, by decide⟩
  · intro h
    cases hs : strip_leading_non_alnum line with
    | nil => simp [hs] at h
    | cons c rest =>
      refine ⟨c, ?_⟩
      have h2 : 1 < (c :: rest).length := hs ▸ h
      have h3 : 0 < rest.length := by simpa using h2
      simp [unescaped_payload, substr_from, hs, h3]
  · intro h
    have h2 : ¬ 1 < (strip_leading_non_alnum line).length := by omega
    simp [unescaped_payload, h2]

/-- C5: a text with neither a backslash nor a colon is left unchanged by
`escape_special_characters`, and "A:B" becomes A, backslash, colon, B. -/
theorem escape_id_of_no_special (text : Bytes)
    (hb : BACKSLASH ∉ text) (hc : COLON ∉ text) :
    escape_special_characters text = text ∧
    escape_special_characters [65, 58, 66] = [65, 92, 58, 66] := by
  refine ⟨?_, by decide⟩
  induction text with
  | nil => rfl
  | cons c cs ih =>
    have h1 : c ≠ BACKSLASH := fun h => hb (by simp [h])
    have h2 : c ≠ COLON := fun h => hc (by simp [h])
    rw [escape_cons, ih (fun h => hb (List.mem_cons_of_mem _ h))
      (fun h => hc (List.mem_cons_of_mem _ h))]
    simp [h1, h2]

theorem escape_id_of_no_special_witness :
    escape_special_characters [50, 51, 52] = [50, 51, 52] ∧
    escape_special_characters [65, 58, 66] = [65, 92, 58, 66] :=
  escape_id_of_no_special [50, 51, 52] (by decide) (by decide)

/-- C6: `escape_special_characters` is injective. -/
theorem escape_injective (a b : Bytes)
    (h : escape_special_characters a = escape_special_characters b) : a = b := by
  induction a generalizing b with
  | nil =>
    cases b with
    | nil => rfl
    | cons y ys =>
      rw [escape_nil, escape_cons] at h
      split_ifs at h <;> simp at h
  | cons x xs ih =>
    cases b with
    | nil =>
      rw [escape_nil, escape_cons] at h
      split_ifs at h <;> simp at h
    | cons y ys =>
      rw [escape_cons, escape_cons] at h
      have hcb : COLON ≠ BACKSLASH := colon_ne_backslash
      have hbc : BACKSLASH ≠ COLON := fun e => hcb e.symm
      by_cases hx1 : x = BACKSLASH
      · subst hx1
        by_cases hy1 : y = BACKSLASH
        · subst hy1
          simp only [if_true, List.cons_append, List.nil_append, List.cons.injEq,
            true_and] at h
          rw [ih _ h]
        · by_cases hy2 : y = COLON
          · subst hy2
            simp only [if_true, if_neg hcb, List.cons_append, List.nil_append,
              List.cons.injEq] at h
            exact absurd h.2.1 hbc
          · simp only [if_true, if_neg hy1, if_neg hy2, List.cons_append, List.nil_append,
              List.cons.injEq] at h
            exact absurd h.1.symm hy1
      · by_cases hx2 : x = COLON
        · subst hx2
          by_cases hy1 : y = BACKSLASH
          · subst hy1
            simp only [if_true, if_neg hcb, List.cons_append, List.nil_append,
              List.cons.injEq] at h
            exact absurd h.2.1 hcb
          · by_cases hy2 : y = COLON
            · subst hy2
              simp only [if_true, if_neg hcb, List.cons_append, List.nil_append,
                List.cons.injEq, true_and] at h
              rw [ih _ h]
            · simp only [if_true, if_neg hcb, if_neg hy1, if_neg hy2, List.cons_append,
                List.nil_append, List.cons.injEq] at h
              exact absurd h.1.symm hy1
        · by_cases hy1 : y = BACKSLASH
          · subst hy1
            simp only [if_true, if_neg hx1, if_neg hx2, List.cons_append, List.nil_append,
              List.cons.injEq] at h
            exact absurd h.1 hx1
          · by_cases hy2 : y = COLON
            · subst hy2
              simp only [if_true, if_neg hcb, if_neg hx1, if_neg hx2, List.cons_append,
                List.nil_append, List.cons.injEq] at h
              exact absurd h.1 hx1
            · simp only [if_neg hy1, if_neg hy2, if_neg hx1, if_neg hx2, List.cons_append,
                List.nil_append, List.cons.injEq] at h
              rw [h.1, ih _ h.2]

theorem escape_injective_witness :
    ([65, 92, 58] : Bytes) = [65, 92, 58] :=
  escape_injective [65, 92, 58] [65, 92, 58] (by decide)

/-! ## Lemmas on the line splitting -/

theorem find_eq_none (s : Bytes) (c : Byte) (h : find s c = none) : c ∉ s := by
  induction s with
  | nil => simp
  | cons x xs ih =>
    rw [find] at h
    by_cases hx : x = c
    · simp [hx] at h
    · rw [if_neg hx] at h
      have hn : find xs c = none := by simpa using h
      have := ih hn
      simp [this, Ne.symm hx]

theorem find_of_not_mem (s : Bytes) (c : Byte) (h : c ∉ s) : find s c = none := by
  induction s with
  | nil => rfl
  | cons x xs ih =>
    have hx : x ≠ c := fun e => h (by simp [e])
    have hxs : c ∉ xs := fun e => h (List.mem_cons_of_mem _ e)
    simp [find, hx, ih hxs]

theorem find_cons_some (x : Byte) (xs : Bytes) (c : Byte) (pos : Nat) (hx : x ≠ c)
    (h : find (x :: xs) c = some pos) : ∃ p, find xs c = some p ∧ pos = p + 1 := by
  rw [find, if_neg hx] at h
  cases hf : find xs c with
  | none => simp [hf] at h
  | some p =>
    refine ⟨p, rfl, ?_⟩
    simpa [hf] using h.symm

theorem segments_of_find_none (cur s : Bytes) (h : find s CR = none) :
    cr_segments_from cur s = [] ∧ cr_rest_from cur s = cur ++ s := by
  induction s generalizing cur with
  | nil => simp [cr_segments_from, cr_rest_from]
  | cons x xs ih =>
    have hm := find_eq_none _ _ h
    have hx : x ≠ CR := fun e => hm (by simp [e])
    have hxs : find xs CR = none := find_of_not_mem _ _ (fun e => hm (List.mem_cons_of_mem _ e))
    have := ih (cur ++ [x]) hxs
    simp [cr_segments_from, cr_rest_from, hx, this]

theorem segments_of_find_some (cur s : Bytes) (pos : Nat) (h : find s CR = some pos) :
    cr_segments_from cur s = (cur ++ s.take pos) :: cr_segments_from [] (s.drop (pos + 1)) ∧
    cr_rest_from cur s = cr_rest_from [] (s.drop (pos + 1)) ∧ pos < s.length := by
  induction s generalizing cur pos with
  | nil => simp [find] at h
  | cons x xs ih =>
    by_cases hx : x = CR
    · have hp : pos = 0 := by simpa [find, hx] using h.symm
      subst hp
      simp [cr_segments_from, cr_rest_from, hx]
    · obtain ⟨p, hf, hp⟩ := find_cons_some x xs CR pos hx h
      subst hp
      obtain ⟨h1, h2, h3⟩ := ih (cur ++ [x]) p hf
      simp [cr_segments_from, cr_rest_from, hx, h1, h2, h3]

theorem handle_line_eq (line : Bytes) (sent : List Bytes) :
    handle_line line sent = sent ++ frames_of [line] := by
  cases line <;> simp [handle_line, frames_of]

theorem frames_of_cons (l : Bytes) (ls : List Bytes) :
    frames_of (l :: ls) = frames_of [l] ++ frames_of ls := by
  cases l <;> simp [frames_of]

theorem split_loop_eq (fuel : Nat) (st : ReaderState) (h : st.buffer.length ≤ fuel) :
    split_loop fuel st =
      ⟨cr_rest_from [] st.buffer, st.lines ++ cr_segments_from [] st.buffer,
        st.sent ++ frames_of (cr_segments_from [] st.buffer)⟩ := by
  induction fuel generalizing st with
  | zero =>
    have hb : st.buffer = [] := List.length_eq_zero.mp (Nat.le_zero.mp h)
    cases st
    simp_all [split_loop, cr_rest_from, cr_segments_from, frames_of]
  | succ fuel ih =>
    rw [split_loop]
    cases hf : find st.buffer CR with
    | none =>
      obtain ⟨h1, h2⟩ := segments_of_find_none [] st.buffer hf
      cases st
      simp_all [frames_of]
    | some pos =>
      obtain ⟨h1, h2, h3⟩ := segments_of_find_some [] st.buffer pos hf
      have hs : substr st.buffer 0 pos = st.buffer.take pos := by simp [substr]
      have he : erase st.buffer 0 (pos + 1) = st.buffer.drop (pos + 1) := by simp [erase]
      simp only [hs, he]
      rw [ih _ (by simp only [List.length_drop]; omega), h1, h2, handle_line_eq,
        frames_of_cons (_ ++ _)]
      simp

theorem segments_flatten (cur s : Bytes) :
    (cr_segments_from cur s).flatten ++ cr_rest_from cur s =
      cur ++ s.filter (fun c => c != CR) := by
  induction s generalizing cur with
  | nil => simp [cr_segments_from, cr_rest_from]
  | cons x xs ih =>
    by_cases hx : x = CR
    · have := ih []
      simp_all [cr_segments_from, cr_rest_from]
    · have := ih (cur ++ [x])
      simp_all [cr_segments_from, cr_rest_from]

theorem segments_decomp (cur s : Bytes) :
    ((cr_segments_from cur s).map (fun l => l ++ [CR])).flatten ++ cr_rest_from cur s =
      cur ++ s := by
  induction s generalizing cur with
  | nil => simp [cr_segments_from, cr_rest_from]
  | cons x xs ih =>
    by_cases hx : x = CR
    · have := ih []
      simp_all [cr_segments_from, cr_rest_from]
    · have := ih (cur ++ [x])
      simp_all [cr_segments_from, cr_rest_from]

theorem segments_no_cr (cur s : Bytes) (h : CR ∉ cur) :
    (∀ l ∈ cr_segments_from cur s, CR ∉ l) ∧ CR ∉ cr_rest_from cur s := by
  induction s generalizing cur with
  | nil => simp [cr_segments_from, cr_rest_from, h]
  | cons x xs ih =>
    by_cases hx : x = CR
    · have := ih [] (by simp)
      simp_all [cr_segments_from, cr_rest_from]
    · have := ih (cur ++ [x]) (by simp [h, Ne.symm hx])
      simp_all [cr_segments_from, cr_rest_from]

theorem segments_append (cur x y : Bytes) :
    cr_segments_from cur (x ++ y) =
      cr_segments_from cur x ++ cr_segments_from (cr_rest_from cur x) y ∧
    cr_rest_from cur (x ++ y) = cr_rest_from (cr_rest_from cur x) y := by
  induction x generalizing cur with
  | nil => simp [cr_segments_from, cr_rest_from]
  | cons c cs ih =>
    by_cases hc : c = CR
    · have := ih []
      simp_all [cr_segments_from, cr_rest_from]
    · have := ih (cur ++ [c])
      simp_all [cr_segments_from, cr_rest_from]

theorem segments_from_acc (cur y : Bytes) (h : CR ∉ cur) :
    cr_segments_from [] (cur ++ y) = cr_segments_from cur y ∧
    cr_rest_from [] (cur ++ y) = cr_rest_from cur y := by
  obtain ⟨h1, h2⟩ := segments_append [] cur y
  obtain ⟨h3, h4⟩ := segments_of_find_none [] cur (find_of_not_mem _ _ h)
  rw [h1, h2, h3, h4]
  simp

theorem frames_of_append (xs ys : List Bytes) :
    frames_of (xs ++ ys) = frames_of xs ++ frames_of ys := by
  simp [frames_of]

theorem read_chunk_nil (st : ReaderState) : read_chunk st [] = st := rfl

theorem read_chunk_eq (st : ReaderState) (chunk : Bytes) (h : chunk ≠ []) :
    read_chunk st chunk =
      ⟨cr_rest_from [] (st.buffer ++ chunk),
        st.lines ++ cr_segments_from [] (st.buffer ++ chunk),
        st.sent ++ frames_of (cr_segments_from [] (st.buffer ++ chunk))⟩ := by
  cases chunk with
  | nil => exact absurd rfl h
  | cons c cs =>
    have : read_chunk st (c :: cs) =
        split_loop (st.buffer ++ c :: cs).length { st with buffer := st.buffer ++ c :: cs } :=
      rfl
    rw [this]
    exact split_loop_eq _ ⟨st.buffer ++ c :: cs, st.lines, st.sent⟩ (Nat.le_refl _)

theorem read_chunk_no_cr (st : ReaderState) (chunk : Bytes) (h : CR ∉ st.buffer) :
    CR ∉ (read_chunk st chunk).buffer := by
  cases chunk with
  | nil => exact h
  | cons c cs =>
    rw [read_chunk_eq st (c :: cs) (by simp)]
    exact (segments_no_cr [] _ (by simp)).2

theorem read_chunk_append (st : ReaderState) (a b : Bytes) :
    read_chunk (read_chunk st a) b = read_chunk st (a ++ b) := by
  cases a with
  | nil => rfl
  | cons x xs =>
    cases b with
    | nil => simp [read_chunk_nil]
    | cons y ys =>
      have hcr : CR ∉ (read_chunk st (x :: xs)).buffer := by
        rw [read_chunk_eq st (x :: xs) (by simp)]
        exact (segments_no_cr [] _ (by simp)).2
      rw [read_chunk_eq _ (y :: ys) (by simp)]
      obtain ⟨h1, h2⟩ := segments_from_acc (read_chunk st (x :: xs)).buffer (y :: ys) hcr
      rw [h1, h2, read_chunk_eq st (x :: xs) (by simp),
        read_chunk_eq st (x :: xs ++ y :: ys) (by simp)]
      obtain ⟨h3, h4⟩ := segments_append [] (st.buffer ++ x :: xs) (y :: ys)
      rw [← List.append_assoc, h3, h4, frames_of_append]
      simp

theorem read_chunks_conserve (st : ReaderState) (chunks : List Bytes) (h : CR ∉ st.buffer) :
    (read_chunks st chunks).lines.flatten ++ (read_chunks st chunks).buffer =
      st.lines.flatten ++ st.buffer ++ chunks.flatten.filter (fun c => c != CR) := by
  induction chunks generalizing st with
  | nil => simp [read_chunks]
  | cons chunk rest ih =>
    have hstep : read_chunks st (chunk :: rest) = read_chunks (read_chunk st chunk) rest := rfl
    rw [hstep, ih _ (read_chunk_no_cr st chunk h)]
    cases chunk with
    | nil => simp [read_chunk_nil]
    | cons c cs =>
      rw [read_chunk_eq st (c :: cs) (by simp)]
      have hfl := segments_flatten [] (st.buffer ++ c :: cs)
      have hb : st.buffer.filter (fun c => c != CR) = st.buffer := by
        rw [List.filter_eq_self]
        intro a ha
        have : a ≠ CR := fun e => h (e ▸ ha)
        simpa using this
      simp only [List.flatten_append, List.append_assoc, List.flatten_cons, List.filter_append]
      simp only [List.nil_append, List.filter_append, hb, List.append_assoc] at hfl
      rw [← List.append_assoc (cr_segments_from [] _).flatten, hfl]
      simp

/-! ## Claims on the reader loop -/

/-- C1: byte conservation. For every sequence of chunks fed one after another from the
empty buffer, the extracted lines (empty ones included) concatenated in extraction
order, followed by the bytes left in the buffer, are the concatenation of the chunks
with every carriage return removed. -/
theorem byte_conservation (chunks : List Bytes) :
    (read_chunks ReaderState.init chunks).lines.flatten ++
        (read_chunks ReaderState.init chunks).buffer =
      chunks.flatten.filter (fun c => c != CR) := by
  have := read_chunks_conserve ReaderState.init chunks (by simp [ReaderState.init])
  simpa [ReaderState.init] using this

/-- C2: chunk boundaries do not matter. For every buffer (with or without a carriage
return in it) and chunks `a` and `b`, feeding `a` and then `b` extracts in total the
same lines and leaves the same buffer as feeding `a ++ b`. From the empty buffer,
"AB" extracts no line and stays buffered, and then "C\r" extracts exactly the line
"ABC" and leaves the buffer empty. -/
theorem chunk_boundaries_irrelevant (st : ReaderState) (a b : Bytes) :
    (read_chunk (read_chunk st a) b).lines = (read_chunk st (a ++ b)).lines ∧
    (read_chunk (read_chunk st a) b).buffer = (read_chunk st (a ++ b)).buffer ∧
    (read_chunk ReaderState.init [65, 66]).lines = [] ∧
    (read_chunk ReaderState.init [65, 66]).buffer = [65, 66] ∧
    (read_chunk (read_chunk ReaderState.init [65, 66]) [67, 13]).lines = [[65, 66, 67]] ∧
    (read_chunk (read_chunk ReaderState.init [65, 66]) [67, 13]).buffer = [] := by
  rw [read_chunk_append]
  exact ⟨rfl, rfl, by decide, by decide, by decide, by decide⟩

/-- C7: wire format. For a non-empty line the loop body passes to `send_server` exactly
one message: 0x02, the 10 bytes of "STM:1:1::1", the escaped payload (strip the leading
non-alphanumerics, drop the first byte if more than one is left, escape), ':', 0x03;
its length is the escaped payload's length plus 13. Line "#1234" gives 0x02,
"STM:1:1::1", "234", ":", 0x03. Fed as the chunk `line ++ "\r"` to the empty buffer, a
line without carriage return makes the reader send exactly that message. -/
theorem wire_format (line : Bytes) (sent : List Bytes) (h : line ≠ []) :
    handle_line line sent =
      sent ++ [[2] ++ [83, 84, 77, 58, 49, 58, 49, 58, 58, 49] ++
        escape_special_characters
          (if 1 < (strip_leading_non_alnum line).length
            then (strip_leading_non_alnum line).tail else strip_leading_non_alnum line) ++
        [58] ++ [3]] ∧
    (build_msg line).length =
      (escape_special_characters (unescaped_payload line)).length + 13 ∧
    build_msg [35, 49, 50, 51, 52] =
      [2, 83, 84, 77, 58, 49, 58, 49, 58, 58, 49, 50, 51, 52, 58, 3] ∧
    (CR ∉ line →
      (read_chunk ⟨[], [], sent⟩ (line ++ [CR])).sent = sent ++ [build_msg line]) := by
  have hne : line.isEmpty = false := by cases line <;> simp_all
  refine ⟨?_, ?_, by decide, ?_⟩
  · simp [handle_line, hne, build_msg, unescaped_payload, substr_from, HEADER, FOOTER, STX,
      ETX]
  · simp [build_msg, HEADER, FOOTER]
  · intro hcr
    rw [read_chunk_eq _ _ (by simp)]
    obtain ⟨h1, -⟩ := segments_append [] line [CR]
    obtain ⟨h3, h4⟩ := segments_of_find_none [] line (find_of_not_mem _ _ hcr)
    simp only [List.nil_append, h1, h3, h4]
    simp [cr_segments_from, frames_of, hne]

theorem wire_format_witness :
    handle_line [35, 49, 50, 51, 52] [] =
      [] ++ [[2] ++ [83, 84, 77, 58, 49, 58, 49, 58, 58, 49] ++
        escape_special_characters
          (if 1 < (strip_leading_non_alnum [35, 49, 50, 51, 52]).length
            then (strip_leading_non_alnum [35, 49, 50, 51, 52]).tail
            else strip_leading_non_alnum [35, 49, 50, 51, 52]) ++
        [58] ++ [3]] ∧
    (build_msg [35, 49, 50, 51, 52]).length =
      (escape_special_characters (unescaped_payload [35, 49, 50, 51, 52])).length + 13 ∧
    build_msg [35, 49, 50, 51, 52] =
      [2, 83, 84, 77, 58, 49, 58, 49, 58, 58, 49, 50, 51, 52, 58, 3] ∧
    (CR ∉ ([35, 49, 50, 51, 52] : Bytes) →
      (read_chunk ⟨[], [], []⟩ ([35, 49, 50, 51, 52] ++ [CR])).sent =
        [] ++ [build_msg [35, 49, 50, 51, 52]]) :=
  wire_format [35, 49, 50, 51, 52] [] (by decide)

/-- C8: order and filtering of forwarded frames. For a non-empty chunk, `buffer ++ chunk`
splits into carriage-return-terminated segments `segs` (none holding a carriage return)
followed by a rest without carriage return; the lines extracted are `segs` in order, the
messages passed to `send_server` are the frames of the non-empty segments in the same
order, one message per such segment, and the rest stays in the buffer. -/
theorem frames_in_order (st : ReaderState) (chunk : Bytes) (h : chunk ≠ []) :
    ∃ (segs : List Bytes) (rest : Bytes),
      st.buffer ++ chunk = (segs.map (fun l => l ++ [CR])).flatten ++ rest ∧
      (∀ l ∈ segs, CR ∉ l) ∧ CR ∉ rest ∧
      (read_chunk st chunk).sent =
        st.sent ++ (segs.filter (fun l => !l.isEmpty)).map build_msg ∧
      (read_chunk st chunk).lines = st.lines ++ segs ∧
      (read_chunk st chunk).buffer = rest := by
  refine ⟨cr_segments_from [] (st.buffer ++ chunk), cr_rest_from [] (st.buffer ++ chunk),
    ?_, ?_, ?_, ?_, ?_, ?_⟩
  · simpa using (segments_decomp [] (st.buffer ++ chunk)).symm
  · exact (segments_no_cr [] _ (by simp)).1
  · exact (segments_no_cr [] _ (by simp)).2
  · rw [read_chunk_eq st chunk h]; rfl
  · rw [read_chunk_eq st chunk h]
  · rw [read_chunk_eq st chunk h]

theorem frames_in_order_witness :
    ∃ (segs : List Bytes) (rest : Bytes),
      [65] ++ [66, 13, 13, 35, 49, 50, 13, 67] =
        (segs.map (fun l => l ++ [CR])).flatten ++ rest ∧
      (∀ l ∈ segs, CR ∉ l) ∧ CR ∉ rest ∧
      (read_chunk ⟨[65], [], []⟩ [66, 13, 13, 35, 49, 50, 13, 67]).sent =
        [] ++ (segs.filter (fun l => !l.isEmpty)).map build_msg ∧
      (read_chunk ⟨[65], [], []⟩ [66, 13, 13, 35, 49, 50, 13, 67]).lines = [] ++ segs ∧
      (read_chunk ⟨[65], [], []⟩ [66, 13, 13, 35, 49, 50, 13, 67]).buffer = rest :=
  frames_in_order ⟨[65], [], []⟩ [66, 13, 13, 35, 49, 50, 13, 67] (by decide)

/-! ## Lemmas on the TCP functions -/

theorem send_server_disconnected (msg : Bytes) (send_ret : Int) (st : Conn)
    (h : st.sock_fd < 0) :
    send_server msg send_ret st = ⟨st.sock_fd, st.trace ++ [Event.log .not_connected]⟩ := by
  simp [send_server, h]

theorem connect_failed_disconnected (sock : Option Nat) (conn_ret : Int) (st : Conn)
    (h : (connect_to_server sock conn_ret st).1 = false) :
    (connect_to_server sock conn_ret st).2.sock_fd < 0 := by
  cases sock with
  | none => simp [connect_to_server, socket_ret]
  | some fd =>
    have hfd : ¬ ((fd : Int) < 0) := by omega
    by_cases hc : conn_ret < 0
    · simp [connect_to_server, socket_ret, hfd, hc]
    · simp [connect_to_server, socket_ret, hfd, hc] at h

theorem run_calls_disconnected (st : Conn) (calls : List Call) (h : st.sock_fd < 0)
    (hcalls : no_connect_succeeds st calls = true) : (run_calls st calls).sock_fd < 0 := by
  induction calls generalizing st with
  | nil => exact h
  | cons c cs ih =>
    simp only [no_connect_succeeds, Bool.and_eq_true, Bool.not_eq_true'] at hcalls
    have hstep : run_calls st (c :: cs) = run_calls (c.run st) cs := rfl
    rw [hstep]
    refine ih _ ?_ hcalls.2
    cases c with
    | connect_to_server sock conn_ret =>
      exact connect_failed_disconnected sock conn_ret st hcalls.1
    | send_server msg send_ret =>
      show (send_server msg send_ret st).sock_fd < 0
      rw [send_server_disconnected msg send_ret st h]
      exact h

theorem connect_to_server_sends (sock : Option Nat) (conn_ret : Int) (st : Conn) :
    (connect_to_server sock conn_ret st).2.trace.filter Event.is_send =
      st.trace.filter Event.is_send := by
  unfold connect_to_server
  cases sock with
  | none => by_cases h : st.sock_fd = -1 <;> simp [socket_ret, h, Event.is_send]
  | some fd =>
    have hfd : ¬ ((fd : Int) < 0) := by omega
    by_cases h : st.sock_fd = -1 <;> by_cases hc : conn_ret < 0 <;>
      simp [socket_ret, h, hc, hfd, Event.is_send]

theorem run_calls_no_send (st : Conn) (calls : List Call) (h : st.sock_fd < 0)
    (hcalls : no_connect_succeeds st calls = true) :
    (run_calls st calls).trace.filter Event.is_send = st.trace.filter Event.is_send := by
  induction calls generalizing st with
  | nil => rfl
  | cons c cs ih =>
    simp only [no_connect_succeeds, Bool.and_eq_true, Bool.not_eq_true'] at hcalls
    have hstep : run_calls st (c :: cs) = run_calls (c.run st) cs := rfl
    rw [hstep]
    cases c with
    | connect_to_server sock conn_ret =>
      have hr : (Call.connect_to_server sock conn_ret).run st =
          (connect_to_server sock conn_ret st).2 := rfl
      rw [hr] at hcalls ⊢
      rw [ih _ (connect_failed_disconnected sock conn_ret st hcalls.1) hcalls.2]
      exact connect_to_server_sends sock conn_ret st
    | send_server msg send_ret =>
      have hs : (Call.send_server msg send_ret).run st =
          ⟨st.sock_fd, st.trace ++ [Event.log .not_connected]⟩ :=
        send_server_disconnected msg send_ret st h
      rw [ih _ (by rw [hs]; exact h) hcalls.2, hs]
      simp [Event.is_send]

/-! ## Claims on the TCP functions -/

/-- C9: send while disconnected. With `sock_fd < 0`, `send_server` only prints
"Socket not connected.": it makes no `send` and no `close` call and leaves `sock_fd`
unchanged. -/
theorem send_while_disconnected (msg : Bytes) (send_ret : Int) (st : Conn)
    (h : st.sock_fd < 0) :
    (send_server msg send_ret st).sock_fd = st.sock_fd ∧
    (send_server msg send_ret st).trace = st.trace ++ [Event.log .not_connected] ∧
    ((send_server msg send_ret st).trace.filter Event.is_send).length =
      (st.trace.filter Event.is_send).length ∧
    ((send_server msg send_ret st).trace.filter Event.is_close).length =
      (st.trace.filter Event.is_close).length := by
  rw [send_server_disconnected msg send_ret st h]
  simp [Event.is_send, Event.is_close]

theorem send_while_disconnected_witness :
    (send_server [2, 65, 3] 3 Conn.init).sock_fd = Conn.init.sock_fd ∧
    (send_server [2, 65, 3] 3 Conn.init).trace =
      Conn.init.trace ++ [Event.log .not_connected] ∧
    ((send_server [2, 65, 3] 3 Conn.init).trace.filter Event.is_send).length =
      (Conn.init.trace.filter Event.is_send).length ∧
    ((send_server [2, 65, 3] 3 Conn.init).trace.filter Event.is_close).length =
      (Conn.init.trace.filter Event.is_close).length :=
  send_while_disconnected [2, 65, 3] 3 Conn.init (by decide)

/-- C10: send failure tears the connection down. When `send_server` is called with
`sock_fd >= 0` and `send` fails, it makes that one `send` call, prints the error and
closes the handle once, and `sock_fd` becomes -1. Any further calls among which no
`connect_to_server` returns `true` make no `send` call and leave `sock_fd` negative, and
a `send_server` call after them only prints "Socket not connected.": nothing is
written, nothing delivered. -/
theorem send_failure_tears_down (msg : Bytes) (send_ret : Int) (st : Conn)
    (hconn : 0 ≤ st.sock_fd) (hfail : send_ret < 0)
    (calls : List Call)
    (hcalls : no_connect_succeeds (send_server msg send_ret st) calls = true)
    (msg2 : Bytes) (send_ret2 : Int) :
    (send_server msg send_ret st).sock_fd = -1 ∧
    (send_server msg send_ret st).trace =
      st.trace ++ [Event.send st.sock_fd msg send_ret, Event.log .send_error,
        Event.close st.sock_fd] ∧
    ((send_server msg send_ret st).trace.filter Event.is_close).length =
      (st.trace.filter Event.is_close).length + 1 ∧
    ((send_server msg send_ret st).trace.filter Event.is_send).length =
      (st.trace.filter Event.is_send).length + 1 ∧
    (run_calls (send_server msg send_ret st) calls).sock_fd < 0 ∧
    (run_calls (send_server msg send_ret st) calls).trace.filter Event.is_send =
      (send_server msg send_ret st).trace.filter Event.is_send ∧
    send_server msg2 send_ret2 (run_calls (send_server msg send_ret st) calls) =
      ⟨(run_calls (send_server msg send_ret st) calls).sock_fd,
        (run_calls (send_server msg send_ret st) calls).trace ++
          [Event.log .not_connected]⟩ := by
  have hn : ¬ st.sock_fd < 0 := by omega
  have h1 : (send_server msg send_ret st).sock_fd = -1 := by
    simp [send_server, hn, hfail]
  have h0 : (send_server msg send_ret st).sock_fd < 0 := by rw [h1]; decide
  have h2 : (run_calls (send_server msg send_ret st) calls).sock_fd < 0 :=
    run_calls_disconnected _ calls h0 hcalls
  refine ⟨h1, ?_, ?_, ?_, h2, run_calls_no_send _ calls h0 hcalls,
    send_server_disconnected _ _ _ h2⟩ <;>
  simp [send_server, hn, hfail, Event.is_close, Event.is_send]

/-- A failing send on descriptor 5, followed by a send, a connect whose `connect` call
fails, and a connect whose `socket` call fails. -/
theorem send_failure_tears_down_witness :
    (send_server [2, 65, 3] (-1) ⟨5, []⟩).sock_fd = -1 ∧
    (run_calls (send_server [2, 65, 3] (-1) ⟨5, []⟩)
      [Call.send_server [2, 66, 3] 3, Call.connect_to_server (some 4) (-1),
        Call.connect_to_server none 0]).sock_fd < 0 ∧
    (run_calls (send_server [2, 65, 3] (-1) ⟨5, []⟩)
      [Call.send_server [2, 66, 3] 3, Call.connect_to_server (some 4) (-1),
        Call.connect_to_server none 0]).trace.filter Event.is_send =
      (send_server [2, 65, 3] (-1) ⟨5, []⟩).trace.filter Event.is_send :=
  have h := send_failure_tears_down [2, 65, 3] (-1) ⟨5, []⟩ (by decide) (by decide)
    [Call.send_server [2, 66, 3] 3, Call.connect_to_server (some 4) (-1),
      Call.connect_to_server none 0] (by decide) [2, 67, 3] 3
  ⟨h.1, h.2.2.2.2.1, h.2.2.2.2.2.1⟩

/-! ## The open-socket invariant -/

theorem open_sockets_append (trace added : List Event) :
    open_sockets (trace ++ added) = added.foldl open_after (open_sockets trace) := by
  simp [open_sockets, List.foldl_append]

theorem connect_to_server_inv (sock : Option Nat) (conn_ret : Int) (st : Conn)
    (hfd : -1 ≤ st.sock_fd)
    (hopen : open_sockets st.trace = if 0 ≤ st.sock_fd then [st.sock_fd] else []) :
    -1 ≤ (connect_to_server sock conn_ret st).2.sock_fd ∧
    open_sockets (connect_to_server sock conn_ret st).2.trace =
      if 0 ≤ (connect_to_server sock conn_ret st).2.sock_fd
        then [(connect_to_server sock conn_ret st).2.sock_fd] else [] := by
  by_cases h1 : st.sock_fd = -1
  · have ho : open_sockets st.trace = [] := by rw [hopen, h1]; rfl
    cases sock with
    | none =>
      simp [connect_to_server, socket_ret, h1, open_sockets_append, open_after, ho]
    | some fd =>
      have hn : ¬ ((fd : Int) < 0) := by omega
      have hp : (0 : Int) ≤ fd := by omega
      have hm : (-1 : Int) ≤ fd := by omega
      by_cases hc : conn_ret < 0 <;>
        simp [connect_to_server, socket_ret, h1, hc, hn, hp, hm, open_sockets_append,
          open_after, ho]
  · have hp0 : 0 ≤ st.sock_fd := by omega
    have ho : open_sockets st.trace = [st.sock_fd] := by rw [hopen, if_pos hp0]
    cases sock with
    | none =>
      simp [connect_to_server, socket_ret, h1, open_sockets_append, open_after, ho]
    | some fd =>
      have hn : ¬ ((fd : Int) < 0) := by omega
      have hp : (0 : Int) ≤ fd := by omega
      have hm : (-1 : Int) ≤ fd := by omega
      by_cases hc : conn_ret < 0 <;>
        simp [connect_to_server, socket_ret, h1, hc, hn, hp, hm, open_sockets_append,
          open_after, ho]

theorem send_server_inv (msg : Bytes) (send_ret : Int) (st : Conn)
    (hfd : -1 ≤ st.sock_fd)
    (hopen : open_sockets st.trace = if 0 ≤ st.sock_fd then [st.sock_fd] else []) :
    -1 ≤ (send_server msg send_ret st).sock_fd ∧
    open_sockets (send_server msg send_ret st).trace =
      if 0 ≤ (send_server msg send_ret st).sock_fd
        then [(send_server msg send_ret st).sock_fd] else [] := by
  by_cases h1 : st.sock_fd < 0
  · have hn : ¬ 0 ≤ st.sock_fd := by omega
    have ho : open_sockets st.trace = [] := by rw [hopen, if_neg hn]
    simp [send_server, h1, hn, hfd, open_sockets_append, open_after, ho]
  · have hp0 : 0 ≤ st.sock_fd := by omega
    have ho : open_sockets st.trace = [st.sock_fd] := by rw [hopen, if_pos hp0]
    by_cases hs : send_ret < 0 <;>
      simp [send_server, h1, hs, hp0, hfd, open_sockets_append, open_after, ho]

theorem run_calls_inv (st : Conn) (calls : List Call)
    (hfd : -1 ≤ st.sock_fd)
    (hopen : open_sockets st.trace = if 0 ≤ st.sock_fd then [st.sock_fd] else []) :
    -1 ≤ (run_calls st calls).sock_fd ∧
    open_sockets (run_calls st calls).trace =
      if 0 ≤ (run_calls st calls).sock_fd then [(run_calls st calls).sock_fd] else [] := by
  induction calls generalizing st with
  | nil => exact ⟨hfd, hopen⟩
  | cons c cs ih =>
    have hstep : run_calls st (c :: cs) = run_calls (c.run st) cs := rfl
    rw [hstep]
    cases c with
    | connect_to_server sock conn_ret =>
      obtain ⟨h1, h2⟩ := connect_to_server_inv sock conn_ret st hfd hopen
      exact ih _ h1 h2
    | send_server msg send_ret =>
      obtain ⟨h1, h2⟩ := send_server_inv msg send_ret st hfd hopen
      exact ih _ h1 h2

theorem reachable_inv (calls : List Call) :
    -1 ≤ (run_calls Conn.init calls).sock_fd ∧
    open_sockets (run_calls Conn.init calls).trace =
      if 0 ≤ (run_calls Conn.init calls).sock_fd
        then [(run_calls Conn.init calls).sock_fd] else [] :=
  run_calls_inv Conn.init calls (by decide) (by decide)

theorem read_chunks_no_cr (st : ReaderState) (chunks : List Bytes) (h : CR ∉ st.buffer) :
    CR ∉ (read_chunks st chunks).buffer := by
  induction chunks generalizing st with
  | nil => exact h
  | cons chunk rest ih => exact ih _ (read_chunk_no_cr st chunk h)

/-! ## Lemmas on the escaped text -/

theorem trailing_backslashes_snoc_backslash (l : Bytes) :
    trailing_backslashes (l ++ [BACKSLASH]) = trailing_backslashes l + 1 := by
  simp [trailing_backslashes, List.takeWhile_cons]

theorem trailing_backslashes_snoc_other (l : Bytes) (x : Byte) (hx : x ≠ BACKSLASH) :
    trailing_backslashes (l ++ [x]) = 0 := by
  simp [trailing_backslashes, List.takeWhile_cons, hx]

theorem escape_colon_run (s : Bytes) (acc pre post : Bytes)
    (hacc : trailing_backslashes acc % 2 = 0)
    (h : escape_special_characters s = pre ++ COLON :: post) :
    trailing_backslashes (acc ++ pre) % 2 = 1 := by
  have hcb : COLON ≠ BACKSLASH := colon_ne_backslash
  have hbc : BACKSLASH ≠ COLON := fun e => hcb e.symm
  induction s generalizing acc pre with
  | nil =>
    rw [escape_nil] at h
    cases pre <;> simp at h
  | cons c cs ih =>
    rw [escape_cons] at h
    by_cases h1 : c = BACKSLASH
    · rw [if_pos h1] at h
      cases pre with
      | nil =>
        simp only [List.cons_append, List.nil_append, List.cons.injEq] at h
        exact absurd h.1 hbc
      | cons x pre1 =>
        cases pre1 with
        | nil =>
          simp only [List.cons_append, List.nil_append, List.cons.injEq] at h
          exact absurd h.2.1 hbc
        | cons y pre2 =>
          simp only [List.cons_append, List.nil_append, List.cons.injEq] at h
          obtain ⟨hx, hy, hrest⟩ := h
          have hacc2 : trailing_backslashes ((acc ++ [BACKSLASH]) ++ [BACKSLASH]) % 2 = 0 := by
            rw [trailing_backslashes_snoc_backslash, trailing_backslashes_snoc_backslash]
            omega
          have := ih ((acc ++ [BACKSLASH]) ++ [BACKSLASH]) pre2 hacc2 hrest
          rw [← hx, ← hy]
          simpa using this
    · rw [if_neg h1] at h
      by_cases h2 : c = COLON
      · rw [if_pos h2] at h
        cases pre with
        | nil =>
          simp only [List.cons_append, List.nil_append, List.cons.injEq] at h
          exact absurd h.1 hbc
        | cons x pre1 =>
          cases pre1 with
          | nil =>
            simp only [List.cons_append, List.nil_append, List.cons.injEq] at h
            rw [← h.1, trailing_backslashes_snoc_backslash]
            omega
          | cons y pre2 =>
            simp only [List.cons_append, List.nil_append, List.cons.injEq] at h
            obtain ⟨hx, hy, hrest⟩ := h
            have hacc2 : trailing_backslashes ((acc ++ [BACKSLASH]) ++ [COLON]) % 2 = 0 := by
              rw [trailing_backslashes_snoc_other _ _ hcb]
            have := ih ((acc ++ [BACKSLASH]) ++ [COLON]) pre2 hacc2 hrest
            rw [← hx, ← hy]
            simpa using this
      · rw [if_neg h2] at h
        cases pre with
        | nil =>
          simp only [List.cons_append, List.nil_append, List.cons.injEq] at h
          exact absurd h.1 h2
        | cons x pre1 =>
          simp only [List.cons_append, List.nil_append, List.cons.injEq] at h
          obtain ⟨hx, hrest⟩ := h
          have hacc2 : trailing_backslashes (acc ++ [c]) % 2 = 0 := by
            rw [trailing_backslashes_snoc_other _ _ h1]
          have := ih (acc ++ [c]) pre1 hacc2 hrest
          rw [← hx]
          simpa using this

theorem escape_length (s : Bytes) :
    (escape_special_characters s).length =
      s.length + s.count BACKSLASH + s.count COLON := by
  have hcb : COLON ≠ BACKSLASH := colon_ne_backslash
  have hbc : BACKSLASH ≠ COLON := fun e => hcb e.symm
  induction s with
  | nil => rfl
  | cons c cs ih =>
    rw [escape_cons, List.length_append, ih]
    by_cases h1 : c = BACKSLASH
    · subst h1
      rw [if_pos rfl, List.count_cons_self, List.count_cons_of_ne hcb]
      simp only [List.length_cons, List.length_nil]
      omega
    · by_cases h2 : c = COLON
      · subst h2
        rw [if_neg hcb, if_pos rfl, List.count_cons_self, List.count_cons_of_ne hbc]
        simp only [List.length_cons, List.length_nil]
        omega
      · rw [if_neg h1, if_neg h2, List.count_cons_of_ne (Ne.symm h1),
          List.count_cons_of_ne (Ne.symm h2)]
        simp only [List.length_cons, List.length_nil]
        omega

theorem mem_escape (x : Byte) (hx : x ≠ BACKSLASH) (s : Bytes) :
    x ∈ escape_special_characters s ↔ x ∈ s := by
  induction s with
  | nil => simp [escape_nil]
  | cons c cs ih =>
    rw [escape_cons]
    by_cases h1 : c = BACKSLASH
    · subst h1
      simp [ih, hx]
    · by_cases h2 : c = COLON
      · subst h2
        simp [ih, hx, colon_ne_backslash]
      · simp [ih, h1, h2]

/-! ## Further claims on the TCP functions -/

/-- C11: delivered does not mean fully written. With a connection, `send_server` treats
every return value of `send` that is not negative as success: it keeps `sock_fd` and
prints "Sent to server", whatever the number of bytes written. For the 16-byte frame of
line "#1234" and a `send` that wrote 3 bytes, the frame counts as sent. -/
theorem send_server_short_write :
    (∀ (msg : Bytes) (send_ret : Int) (st : Conn), 0 ≤ st.sock_fd → 0 ≤ send_ret →
      send_server msg send_ret st =
        ⟨st.sock_fd, st.trace ++ [Event.send st.sock_fd msg send_ret,
          Event.log .sent_to_server]⟩) ∧
    send_server (build_msg [35, 49, 50, 51, 52]) 3 ⟨5, []⟩ =
      ⟨5, [Event.send 5 (build_msg [35, 49, 50, 51, 52]) 3, Event.log .sent_to_server]⟩ ∧
    (build_msg [35, 49, 50, 51, 52]).length = 16 := by
  refine ⟨?_, by decide, by decide⟩
  intro msg send_ret st h1 h2
  have hn : ¬ st.sock_fd < 0 := by omega
  have hr : ¬ send_ret < 0 := by omega
  simp [send_server, hn, hr]

/-- C12: teardown before reconnect. With a handle (`sock_fd >= 0`), the first thing
`connect_to_server` does is close that handle, the next is the `socket` call, and any
`close` after that is of the newly opened socket, at most one; so the prior handle is
closed exactly once, before the new socket is opened, whatever the outcome. With
`sock_fd = -1` the `socket` call comes first: nothing is closed before it. And -1 is
the only negative value `sock_fd` takes in a state reached from the initial one. -/
theorem teardown_before_reconnect (sock : Option Nat) (conn_ret : Int) (st : Conn) :
    (0 ≤ st.sock_fd →
      ∃ tail, (connect_to_server sock conn_ret st).2.trace =
          st.trace ++ Event.close st.sock_fd :: Event.socket (socket_ret sock) :: tail ∧
        (∀ e ∈ tail, e.is_close = true → e = Event.close (socket_ret sock)) ∧
        (tail.filter Event.is_close).length ≤ 1) ∧
    (st.sock_fd = -1 →
      ∃ tail, (connect_to_server sock conn_ret st).2.trace =
          st.trace ++ Event.socket (socket_ret sock) :: tail ∧
        (∀ e ∈ tail, e.is_close = true → e = Event.close (socket_ret sock)) ∧
        (tail.filter Event.is_close).length ≤ 1) ∧
    (∀ calls : List Call, (run_calls Conn.init calls).sock_fd < 0 →
      (run_calls Conn.init calls).sock_fd = -1) := by
  refine ⟨?_, ?_, fun calls h => by have := (reachable_inv calls).1; omega⟩
  · intro h
    have h1 : st.sock_fd ≠ -1 := by omega
    cases sock with
    | none =>
      exact ⟨[Event.log .socket_error], by simp [connect_to_server, socket_ret, h1],
        by simp [Event.is_close], by simp [Event.is_close]⟩
    | some fd =>
      have hfd : ¬ ((fd : Int) < 0) := by omega
      by_cases hc : conn_ret < 0
      · exact ⟨[Event.log .connecting, Event.connect fd conn_ret, Event.log .connect_error,
            Event.close fd],
          by simp [connect_to_server, socket_ret, h1, hfd, hc],
          by simp [Event.is_close, socket_ret], by simp [Event.is_close]⟩
      · exact ⟨[Event.log .connecting, Event.connect fd conn_ret, Event.log .connected],
          by simp [connect_to_server, socket_ret, h1, hfd, hc],
          by simp [Event.is_close], by simp [Event.is_close]⟩
  · intro h1
    cases sock with
    | none =>
      exact ⟨[Event.log .socket_error], by simp [connect_to_server, socket_ret, h1],
        by simp [Event.is_close], by simp [Event.is_close]⟩
    | some fd =>
      have hfd : ¬ ((fd : Int) < 0) := by omega
      by_cases hc : conn_ret < 0
      · exact ⟨[Event.log .connecting, Event.connect fd conn_ret, Event.log .connect_error,
            Event.close fd],
          by simp [connect_to_server, socket_ret, h1, hfd, hc],
          by simp [Event.is_close, socket_ret], by simp [Event.is_close]⟩
      · exact ⟨[Event.log .connecting, Event.connect fd conn_ret, Event.log .connected],
          by simp [connect_to_server, socket_ret, h1, hfd, hc],
          by simp [Event.is_close], by simp [Event.is_close]⟩

theorem teardown_before_reconnect_witness :
    ∃ tail, (connect_to_server (some 6) (-1) ⟨5, []⟩).2.trace =
        [] ++ Event.close 5 :: Event.socket (socket_ret (some 6)) :: tail ∧
      (∀ e ∈ tail, e.is_close = true → e = Event.close (socket_ret (some 6))) ∧
      (tail.filter Event.is_close).length ≤ 1 :=
  (teardown_before_reconnect (some 6) (-1) ⟨5, []⟩).1 (by decide)

/-- C13: outcome of `connect_to_server`. From every state and for every outcome of the
`socket` and `connect` calls, it makes at most one `connect` call; it returns `true`
exactly when `sock_fd >= 0` afterwards, and then `sock_fd` is the descriptor the `socket`
call returned, the one socket this call opened and did not close; when it returns
`false`, `sock_fd < 0` afterwards and no socket this call opened is left open. -/
theorem connect_outcome (sock : Option Nat) (conn_ret : Int) (st : Conn) :
    ∃ added, (connect_to_server sock conn_ret st).2.trace = st.trace ++ added ∧
      (added.filter Event.is_connect).length ≤ 1 ∧
      ((connect_to_server sock conn_ret st).1 = true ↔
        0 ≤ (connect_to_server sock conn_ret st).2.sock_fd) ∧
      ((connect_to_server sock conn_ret st).1 = true →
        (connect_to_server sock conn_ret st).2.sock_fd = socket_ret sock ∧
        open_sockets added = [socket_ret sock]) ∧
      ((connect_to_server sock conn_ret st).1 = false →
        (connect_to_server sock conn_ret st).2.sock_fd < 0 ∧ open_sockets added = []) := by
  cases sock with
  | none =>
    by_cases h1 : st.sock_fd = -1
    · exact ⟨[Event.socket (-1), Event.log .socket_error],
        by simp [connect_to_server, socket_ret, h1, Event.is_connect, open_sockets,
          open_after]⟩
    · exact ⟨[Event.close st.sock_fd, Event.socket (-1), Event.log .socket_error],
        by simp [connect_to_server, socket_ret, h1, Event.is_connect, open_sockets,
          open_after]⟩
  | some fd =>
    have hfd : ¬ ((fd : Int) < 0) := by omega
    have hfd2 : (0 : Int) ≤ fd := by omega
    by_cases h1 : st.sock_fd = -1 <;> by_cases hc : conn_ret < 0
    · exact ⟨[Event.socket fd, Event.log .connecting, Event.connect fd conn_ret,
          Event.log .connect_error, Event.close fd],
        by simp [connect_to_server, socket_ret, h1, hc, hfd, hfd2, Event.is_connect,
          open_sockets, open_after]⟩
    · exact ⟨[Event.socket fd, Event.log .connecting, Event.connect fd conn_ret,
          Event.log .connected],
        by simp [connect_to_server, socket_ret, h1, hc, hfd, hfd2, Event.is_connect,
          open_sockets, open_after]⟩
    · exact ⟨[Event.close st.sock_fd, Event.socket fd, Event.log .connecting,
          Event.connect fd conn_ret, Event.log .connect_error, Event.close fd],
        by simp [connect_to_server, socket_ret, h1, hc, hfd, hfd2, Event.is_connect,
          open_sockets, open_after]⟩
    · exact ⟨[Event.close st.sock_fd, Event.socket fd, Event.log .connecting,
          Event.connect fd conn_ret, Event.log .connected],
        by simp [connect_to_server, socket_ret, h1, hc, hfd, hfd2, Event.is_connect,
          open_sockets, open_after]⟩

/-- C14: lock discipline. `connect_to_server` and `send_server` read and write `sock_fd`
only with `sock_mutex` held, on every path. The reconnect loop of `main` does not: its
test `sock_fd < 0` at line 170 reads `sock_fd` without the mutex, in every pass. -/
theorem reconnect_loop_reads_unlocked (sock : Option Nat) (conn_ret send_ret : Int)
    (st : Conn) :
    lock_disciplined false (connect_to_server_steps sock conn_ret st) = true ∧
    lock_disciplined false (send_server_steps send_ret st) = true ∧
    lock_disciplined false (reconnect_iteration_steps sock conn_ret st) = false ∧
    first_unlocked false (reconnect_iteration_steps sock conn_ret st) =
      some (Step.read_fd 170) := by
  refine ⟨?_, ?_, ?_, ?_⟩
  · unfold connect_to_server_steps
    split_ifs <;> simp [lock_disciplined]
  · unfold send_server_steps
    split_ifs <;> simp [lock_disciplined]
  · simp [reconnect_iteration_steps, lock_disciplined]
  · simp [reconnect_iteration_steps, first_unlocked]

/-- C15: at most one connection, no leak. In every state reached from the initial one
by any sequence of `connect_to_server` and `send_server` calls, whatever the `socket`,
`connect` and `send` calls return, the sockets opened and not yet closed are exactly
`sock_fd` when `sock_fd >= 0` and none when `sock_fd < 0`: one, none, never more. -/
theorem at_most_one_connection (calls : List Call) :
    (0 ≤ (run_calls Conn.init calls).sock_fd →
      open_sockets (run_calls Conn.init calls).trace =
        [(run_calls Conn.init calls).sock_fd] ∧
      (open_sockets (run_calls Conn.init calls).trace).length = 1) ∧
    ((run_calls Conn.init calls).sock_fd < 0 →
      (run_calls Conn.init calls).sock_fd = -1 ∧
      (open_sockets (run_calls Conn.init calls).trace).length = 0) ∧
    (open_sockets (run_calls Conn.init calls).trace).length ≤ 1 := by
  obtain ⟨h1, h2⟩ := reachable_inv calls
  refine ⟨?_, ?_, ?_⟩
  · intro h
    rw [h2, if_pos h]
    exact ⟨rfl, rfl⟩
  · intro h
    have hn : ¬ 0 ≤ (run_calls Conn.init calls).sock_fd := by omega
    rw [h2, if_neg hn]
    exact ⟨by omega, rfl⟩
  · rw [h2]
    split_ifs <;> simp

/-- C17: the reconnect loop never closes a healthy connection. With `sock_fd >= 0`, one
pass of the reconnect loop makes no call to `connect_to_server` and leaves the state as
it is: no event, so nothing closed, and `sock_fd` unchanged. A pass calls
`connect_to_server` exactly when `sock_fd < 0`. -/
theorem reconnect_keeps_healthy (sock : Option Nat) (conn_ret : Int) (st : Conn)
    (h : 0 ≤ st.sock_fd) :
    (reconnect_iteration sock conn_ret st).1 = [] ∧
    (reconnect_iteration sock conn_ret st).2.trace = st.trace ∧
    (reconnect_iteration sock conn_ret st).2.sock_fd = st.sock_fd ∧
    (∀ (sock2 : Option Nat) (conn_ret2 : Int) (st2 : Conn),
      (reconnect_iteration sock2 conn_ret2 st2).1 ≠ [] ↔ st2.sock_fd < 0) := by
  have hn : ¬ st.sock_fd < 0 := by omega
  refine ⟨by simp [reconnect_iteration, hn], by simp [reconnect_iteration, hn],
    by simp [reconnect_iteration, hn], ?_⟩
  intro sock2 conn_ret2 st2
  by_cases h2 : st2.sock_fd < 0 <;> simp [reconnect_iteration, h2]

theorem reconnect_keeps_healthy_witness :
    (reconnect_iteration (some 6) 0 ⟨5, [Event.socket 5]⟩).1 = [] ∧
    (reconnect_iteration (some 6) 0 ⟨5, [Event.socket 5]⟩).2.trace = [Event.socket 5] ∧
    (reconnect_iteration (some 6) 0 ⟨5, [Event.socket 5]⟩).2.sock_fd = 5 ∧
    (∀ (sock2 : Option Nat) (conn_ret2 : Int) (st2 : Conn),
      (reconnect_iteration sock2 conn_ret2 st2).1 ≠ [] ↔ st2.sock_fd < 0) :=
  reconnect_keeps_healthy (some 6) 0 ⟨5, [Event.socket 5]⟩ (by decide)

/-! ## Further claims on the reader loop -/

/-- C16: the buffer never holds a completed line. For every buffer and chunk, the lines
extracted while the chunk is processed hold no carriage return; when the buffer held no
carriage return before, it holds none afterwards; after a non-empty chunk it holds none
in any case; so the buffer of the reader, which starts empty, never holds one. -/
theorem buffer_holds_no_complete_line (st : ReaderState) (chunk : Bytes) :
    (∃ extracted, (read_chunk st chunk).lines = st.lines ++ extracted ∧
      ∀ l ∈ extracted, CR ∉ l) ∧
    (CR ∉ st.buffer → CR ∉ (read_chunk st chunk).buffer) ∧
    (chunk ≠ [] → CR ∉ (read_chunk st chunk).buffer) ∧
    (∀ chunks : List Bytes, CR ∉ (read_chunks ReaderState.init chunks).buffer) := by
  refine ⟨?_, read_chunk_no_cr st chunk, ?_, ?_⟩
  · cases chunk with
    | nil => exact ⟨[], by simp [read_chunk_nil]⟩
    | cons c cs =>
      refine ⟨cr_segments_from [] (st.buffer ++ c :: cs), ?_, ?_⟩
      · rw [read_chunk_eq st (c :: cs) (by simp)]
      · exact (segments_no_cr [] _ (by simp)).1
  · intro h
    rw [read_chunk_eq st chunk h]
    exact (segments_no_cr [] _ (by simp)).2
  · intro chunks
    exact read_chunks_no_cr ReaderState.init chunks (by simp [ReaderState.init])

/-! ## Further claims on the escaping and the frame -/

/-- C18: no unescaped colon in the escaped payload. Wherever a colon stands in
`escape_special_characters s`, the byte right before it is a backslash and the maximal
run of backslashes right before it has odd length; and the escaped text is as long as
`s` plus the number of backslashes and colons in `s`. -/
theorem no_unescaped_colon (s : Bytes) :
    (∀ pre post : Bytes, escape_special_characters s = pre ++ COLON :: post →
      pre.getLast? = some BACKSLASH ∧ trailing_backslashes pre % 2 = 1) ∧
    (escape_special_characters s).length =
      s.length + s.count BACKSLASH + s.count COLON := by
  refine ⟨?_, escape_length s⟩
  intro pre post h
  have hodd : trailing_backslashes pre % 2 = 1 := by
    have := escape_colon_run s [] pre post (by decide) h
    simpa using this
  refine ⟨?_, hodd⟩
  rcases List.eq_nil_or_concat pre with hnil | ⟨pre1, x, hpre⟩
  · rw [hnil] at hodd
    simp [trailing_backslashes] at hodd
  · rw [hpre, List.concat_eq_append] at hodd ⊢
    by_cases hx : x = BACKSLASH
    · simp [hx]
    · rw [trailing_backslashes_snoc_other _ _ hx] at hodd
      omega

/-- C19: sentinel bytes are not escaped. The frame of a line starts with 0x02 and ends
with 0x03, and it holds 0x02 nowhere after its first byte and 0x03 nowhere before its
last byte exactly when the payload of the line (after the strip and drop-first steps)
holds neither 0x02 nor 0x03. The non-empty line 'A', 'B', 0x03 has a frame with 0x03
before its last byte. -/
theorem sentinels_not_escaped (line : Bytes) :
    (build_msg line).head? = some STX ∧
    (build_msg line).getLast? = some ETX ∧
    ((STX ∉ (build_msg line).tail ∧ ETX ∉ (build_msg line).dropLast) ↔
      (STX ∉ unescaped_payload line ∧ ETX ∉ unescaped_payload line)) ∧
    (([65, 66, 3] : Bytes) ≠ [] ∧ ETX ∈ (build_msg [65, 66, 3]).dropLast) := by
  have hb : build_msg line =
      (STX :: (HEADER ++ escape_special_characters (unescaped_payload line) ++ FOOTER)) ++
        [ETX] := by
    simp [build_msg]
  have hs : STX ≠ BACKSLASH := by decide
  have he : ETX ≠ BACKSLASH := by decide
  have h1 : STX ∉ HEADER := by decide
  have h2 : ETX ∉ HEADER := by decide
  have h3 : STX ∉ FOOTER := by decide
  have h4 : ETX ∉ FOOTER := by decide
  have h5 : STX ≠ ETX := by decide
  have h6 : ETX ≠ STX := by decide
  refine ⟨by simp [hb], by rw [hb]; exact List.getLast?_concat _, ?_, by decide,
    by decide⟩
  rw [hb, List.dropLast_concat]
  simp only [List.cons_append, List.tail_cons, List.mem_append, List.mem_cons,
    List.mem_singleton, mem_escape STX hs, mem_escape ETX he, List.not_mem_nil]
  tauto

end FlowControl
